import Mathlib

/-!
Verification of the autoconfig core of this repository
(`lib/autoconfig.js`): schema expansion into candidate rule
configurations, the candidate registry, batch planning, the evaluation
loop, and the selection queries.

JavaScript values appearing in rule configurations are embedded as the
inductive `JSVal`.  JavaScript objects used as ordered string-keyed maps
(option objects, rule sets, the registry itself) are embedded as
association lists in insertion order; all keys arising here are
non-integer-like strings, for which JavaScript preserves insertion order.
-/

/-- Embedding of the JavaScript values that occur in rule configurations:
numbers (severities), strings (enum options), booleans, plain objects
(ordered fields) and arrays. -/
inductive JSVal where
  | num (n : Nat)
  | str (s : String)
  | boolVal (b : Bool)
  | obj (fields : List (String × JSVal))
  | arr (elems : List JSVal)

/-- Embedding of `explodeArray` (autoconfig.js line 41): wrap every element
of the array into a one-element array. -/
def explodeArray (xs : List JSVal) : List JSVal :=
  xs.map (fun x => JSVal.arr [x])

/-- One-level spread of `[].concat(x)`: an array contributes its elements,
any other value contributes itself. -/
def concatSpread : JSVal → List JSVal
  | JSVal.arr es => es
  | v => [v]

/-- Embedding of `combineArrays` (line 59): if either array is empty the
other one is exploded; otherwise every element of the second is
concatenated (with one-level array spread, as `[].concat(x1, x2)`) onto
every element of the first. -/
def combineArrays (arr1 arr2 : List JSVal) : List JSVal :=
  match arr1, arr2 with
  | [], _ => explodeArray arr2
  | _, [] => explodeArray arr1
  | _, _ => arr1.flatMap (fun x1 => arr2.map (fun x2 => JSVal.arr (concatSpread x1 ++ concatSpread x2)))

/-- The key `Object.keys(obj)[0]` of a single-property object; the
JavaScript value `undefined` coerces to the property name "undefined" on
an empty object. -/
def firstKey : JSVal → String
  | JSVal.obj ((k, _) :: _) => k
  | _ => "undefined"

/-- One step of the accumulator of `groupByProperty` (line 100):
`accumulator[prop] = accumulator[prop] ? accumulator[prop].concat(obj) : [obj]`,
on an insertion-ordered map. -/
def insertGrouped (acc : List (String × List JSVal)) (o : JSVal) : List (String × List JSVal) :=
  let k := firstKey o
  if acc.any (fun p => p.1 = k) then
    acc.map (fun p => if p.1 = k then (p.1, p.2 ++ [o]) else p)
  else
    acc ++ [(k, [o])]

/-- Embedding of `groupByProperty` (line 99): group single-property objects
by their property name, in first-appearance order. -/
def groupByProperty (objects : List JSVal) : List (List JSVal) :=
  (objects.foldl insertGrouped []).map Prod.snd

/-- The fields of a JavaScript object; only ever applied to `obj` values
here. -/
def objFields : JSVal → List (String × JSVal)
  | JSVal.obj fs => fs
  | _ => []

/-- JavaScript property assignment `o[k] = v` on an insertion-ordered
field list: overwrite in place when the key exists, append otherwise. -/
def setProp (fields : List (String × JSVal)) (k : String) (v : JSVal) : List (String × JSVal) :=
  if fields.any (fun p => p.1 = k) then
    fields.map (fun p => if p.1 = k then (k, v) else p)
  else
    fields ++ [(k, v)]

/-- Embedding of `combinePropertyObjects` (line 133): if either array is
empty return the other; otherwise merge every object of the first with
every object of the second (copying the first object's properties, then
the second's, into a fresh object). -/
def combinePropertyObjects (objArr1 objArr2 : List JSVal) : List JSVal :=
  match objArr1, objArr2 with
  | [], _ => objArr2
  | _, [] => objArr1
  | _, _ =>
      objArr1.flatMap (fun o1 => objArr2.map (fun o2 =>
        JSVal.obj ((objFields o1 ++ objFields o2).foldl (fun acc kv => setProp acc kv.1 kv.2) [])))

/-- A sub-property of an object schema descriptor: the two fields of it
that `addObject` inspects (`enum` and `type`). -/
structure SchemaProp where
  enumVals : Option (List JSVal)
  propType : Option String

/-- One option descriptor of a rule schema: the fields that
`generateConfigsFromSchema` and `addObject` inspect.  `enumVals` models the
`enum` property (`none` = absent; JavaScript arrays are always truthy),
`propType` the `type` property, `properties` the `properties` object of an
object descriptor, `hasOneOf` the (ignored) `oneOf` property. -/
structure SchemaOpt where
  enumVals : Option (List JSVal)
  propType : Option String
  properties : List (String × SchemaProp)
  hasOneOf : Bool

/-- A rule schema as `generateConfigsFromSchema` sees it: either an array
of option descriptors, or any non-array value (an object-form schema — its
descriptors are carried but never read — or an absent schema), which the
`Array.isArray` test rejects wholesale. -/
inductive Schema where
  | arraySchema (opts : List SchemaOpt)
  | objectForm (opts : List SchemaOpt)
  | absent

/-- Embedding of `config.unshift(severity)` inside `addErrorSeverity`
(line 254); every stored config is an array at that point (on a non-array
JavaScript would throw, which never happens on the paths exercised). -/
def jsUnshift (s : Nat) : JSVal → JSVal
  | JSVal.arr es => JSVal.arr (JSVal.num s :: es)
  | v => v

/-- Embedding of `RuleConfigSet.addErrorSeverity` (line 251):
`severity = severity || 2` (so an absent or zero argument becomes 2), the
severity is unshifted onto every config, and a single bare-severity config
is unshifted onto the front of the list. -/
def addErrorSeverity (configs : List JSVal) (severity : Option Nat) : List JSVal :=
  let s := match severity with
    | some n => if n = 0 then 2 else n
    | none => 2
  JSVal.num s :: configs.map (jsUnshift s)

/-- Embedding of `RuleConfigSet.addEnums` (line 266). -/
def addEnums (configs : List JSVal) (enums : List JSVal) : List JSVal :=
  configs ++ combineArrays configs enums

/-- The `objectConfigs` accumulation inside `addObject` (lines 276-302):
for every property, its `enum` values and then — when its type is
"boolean" — the values `true` and `false` each contribute a single-key
option object. -/
def buildObjectConfigs (properties : List (String × SchemaProp)) : List JSVal :=
  properties.foldl (fun acc pp =>
    let acc := match pp.2.enumVals with
      | some vs => acc ++ vs.map (fun v => JSVal.obj [(pp.1, v)])
      | none => acc
    if pp.2.propType = some "boolean" then
      acc ++ [JSVal.obj [(pp.1, JSVal.boolVal true)], JSVal.obj [(pp.1, JSVal.boolVal false)]]
    else acc) []

/-- Embedding of `RuleConfigSet.addObject` (line 275): build the single-key
option objects, `combine` them (group by property, then reduce with
`combinePropertyObjects` from an empty accumulator), and concatenate
`combineArrays(ruleConfigs, objectConfigs)` onto the configs (the guard
`if (objectConfigSet.objectConfigs)` is always true: arrays are truthy). -/
def addObject (configs : List JSVal) (opt : SchemaOpt) : List JSVal :=
  let objectConfigs :=
    (groupByProperty (buildObjectConfigs opt.properties)).foldl combinePropertyObjects []
  configs ++ combineArrays configs objectConfigs

/-- The body of the `schema.forEach` loop of `generateConfigsFromSchema`
(lines 319-329): an `enum` property feeds `addEnums`, a descriptor of type
"object" feeds `addObject`, and `oneOf` is not implemented (ignored). -/
def applyOpt (configs : List JSVal) (opt : SchemaOpt) : List JSVal :=
  let configs := match opt.enumVals with
    | some es => addEnums configs es
    | none => configs
  if opt.propType = some "object" then addObject configs opt else configs

/-- Embedding of `generateConfigsFromSchema` (line 316): descriptors are
processed in order when the schema is an array, any non-array schema
contributes nothing, and `addErrorSeverity()` (no argument, hence severity
2) finishes the set. -/
def generateConfigsFromSchema (schema : Schema) : List JSVal :=
  let configs := match schema with
    | Schema.arraySchema opts => opts.foldl applyOpt []
    | _ => []
  addErrorSeverity configs none

/-- Embedding of the module-level constant `ruleBlacklist` (line 26). -/
def ruleBlacklist : List String :=
  ["lines-around-comment"]

/-- Embedding of the module-level constant `MAX_CONFIG_COMBINATIONS`
(line 25). -/
def MAX_CONFIG_COMBINATIONS : Nat := 16

/-- Embedding of `createConfigsForCoreRules` (line 162).  The rule catalog
(`loadRules()` plus `rules.get`) is an external collaborator, so it is
passed as the ruleId → schema list `ruleList`; a rule is expanded exactly
when its id is not in the hard-coded `ruleBlacklist`. -/
def createConfigsForCoreRules (ruleList : List (String × Schema)) : List (String × List JSVal) :=
  ruleList.filterMap (fun p =>
    if p.1 ∈ ruleBlacklist then none
    else some (p.1, generateConfigsFromSchema p.2))

/-- One registry entry (lines 344-348): a configuration, its specificity
and its accumulated error count. -/
structure RegistryItem where
  config : JSVal
  specificity : Nat
  errorCount : Nat

/-- The JavaScript expression `config.length || 1` (line 346): arrays and
strings have a `length` (falsy when 0), numbers, booleans and plain
objects do not. -/
def lengthOr1 : JSVal → Nat
  | JSVal.arr es => if es.length = 0 then 1 else es.length
  | JSVal.str s => if s.length = 0 then 1 else s.length
  | _ => 1

/-- The `rules` mapping of a registry: ruleId → list of registry items, in
insertion order. -/
abbrev RegistryRules := List (String × List RegistryItem)

/-- Embedding of the `Registry` constructor (line 340) applied to an
explicit `rulesConfig`: every config is wrapped as
`{config, specificity: config.length || 1, errorCount: 0}`. -/
def mkRegistry (rulesConfig : List (String × List JSVal)) : RegistryRules :=
  rulesConfig.map (fun rc => (rc.1, rc.2.map (fun c => RegistryItem.mk c (lengthOr1 c) 0)))

/-- The batch built for index `idx` by `addRuleToRuleSet` (line 200) over
all rule ids: a rule contributes its `idx`-th candidate exactly when that
candidate exists and the rule's candidate list has length at most
`MAX_CONFIG_COMBINATIONS`. -/
def batchAt (rules : RegistryRules) (idx : Nat) : List (String × JSVal) :=
  rules.filterMap (fun p =>
    (p.2[idx]?).bind (fun item =>
      if p.2.length ≤ MAX_CONFIG_COMBINATIONS then some (p.1, item.config) else none))

/-- The length of the longest candidate list among rules within the
`MAX_CONFIG_COMBINATIONS` cap; the `while` loop of `buildRuleSets` runs
exactly this many productive iterations. -/
def longestEligibleLen (rules : RegistryRules) : Nat :=
  rules.foldl (fun m p => if p.2.length ≤ MAX_CONFIG_COMBINATIONS then max m p.2.length else m) 0

/-- The `while (ruleSets.length === idx)` loop of `buildRuleSets`
(line 207), with explicit fuel: the loop body creates slot `idx` exactly
when some rule contributes to it, and the loop exits as soon as a pass
creates nothing. -/
def buildRuleSetsAux (rules : RegistryRules) : Nat → Nat → List (List (String × JSVal))
  | 0, _ => []
  | fuel + 1, idx =>
    match batchAt rules idx with
    | [] => []
    | b :: bs => (b :: bs) :: buildRuleSetsAux rules fuel (idx + 1)

/-- Embedding of `buildRuleSets` (line 186).  The fuel
`longestEligibleLen rules + 1` covers every iteration the JavaScript loop
performs (one pass per created batch plus the final empty pass). -/
def buildRuleSets (rules : RegistryRules) : List (List (String × JSVal)) :=
  buildRuleSetsAux rules (longestEligibleLen rules + 1) 0

/-- Embedding of `Registry.stripFailingConfigs` (line 357): per rule keep
the candidates with `errorCount === 0`; when none remain the rule is
deleted from the registry. -/
def stripFailingConfigs (rules : RegistryRules) : RegistryRules :=
  rules.filterMap (fun p =>
    let errorFreeItems := p.2.filter (fun it => it.errorCount = 0)
    if 0 < errorFreeItems.length then some (p.1, errorFreeItems) else none)

/-- Embedding of `Registry.getRulesWithOneConfig` (line 372): ruleId →
config for every rule whose candidate list has length exactly 1. -/
def getRulesWithOneConfig (rules : RegistryRules) : List (String × JSVal) :=
  rules.filterMap (fun p =>
    if p.2.length = 1 then (p.2[0]?).map (fun item => (p.1, item.config)) else none)

/-- Embedding of `Registry.getRulesWithSpecificity` (line 385): ruleId →
config for every rule with exactly one candidate of the given
specificity. -/
def getRulesWithSpecificity (rules : RegistryRules) (specificity : Nat) : List (String × JSVal) :=
  rules.filterMap (fun p =>
    let specConfigs := p.2.filter (fun it => it.specificity = specificity)
    if specConfigs.length = 1 then (specConfigs[0]?).map (fun item => (p.1, item.config)) else none)

/-- One diagnostic returned by the linter: the evaluation loop only reads
its `ruleId`. -/
structure LintResult where
  ruleId : String

/-- Embedding of `registry.rules[result.ruleId][ruleSetIdx].errorCount += 1`
(line 430): increment the error count of candidate `idx` of the first
entry keyed `ruleId`; `none` when the rule is absent or the index is out
of range (JavaScript throws a TypeError there, caught by the surrounding
`try`). -/
def bumpError : RegistryRules → String → Nat → Option RegistryRules
  | [], _, _ => none
  | p :: rest, ruleId, idx =>
    if p.1 = ruleId then
      (p.2[idx]?).map (fun item =>
        (p.1, p.2.set idx (RegistryItem.mk item.config item.specificity (item.errorCount + 1))) :: rest)
    else
      (bumpError rest ruleId idx).map (fun rest2 => p :: rest2)

/-- The `lintResults.forEach` attribution loop (line 429): results are
applied in order; a failing lookup throws out of the loop (keeping the
increments already made), which the caller's `catch` absorbs. -/
def applyResults : RegistryRules → Nat → List LintResult → RegistryRules
  | rules, _, [] => rules
  | rules, idx, r :: rest =>
    match bumpError rules r.ruleId idx with
    | some rules2 => applyResults rules2 idx rest
    | none => rules

/-- The `ruleSets.forEach` loop of `lintWithConfigs` (line 425) for one
file: each batch is evaluated by the external `verify` (given the file,
the base config and the batch); a successful call has its diagnostics
attributed, a thrown error is caught and logged and the loop continues
with the next batch. -/
def lintBatches {Cfg : Type} (verify : String → Cfg → List (String × JSVal) → Except String (List LintResult))
    (config : Cfg) (filename : String) :
    List (Nat × List (String × JSVal)) → RegistryRules → RegistryRules
  | [], rules => rules
  | (idx, rs) :: rest, rules =>
    lintBatches verify config filename rest
      (match verify filename config rs with
        | Except.ok lintResults => applyResults rules idx lintResults
        | Except.error _ => rules)

/-- The `filenames.forEach` loop of `lintWithConfigs` (line 422): every
file is evaluated against every batch, with the batch index counting up
from 0 per file. -/
def lintFiles {Cfg : Type} (verify : String → Cfg → List (String × JSVal) → Except String (List LintResult))
    (config : Cfg) (ruleSets : List (List (String × JSVal))) :
    List String → RegistryRules → RegistryRules
  | [], rules => rules
  | f :: rest, rules =>
    lintFiles verify config ruleSets rest (lintBatches verify config f ruleSets.enum rules)

/-- Embedding of `lintWithConfigs` (line 408): build the registry over the
(externally supplied) rule catalog, plan the batches once, then run every
(file, batch) pair through the external linter `verify`. -/
def lintWithConfigs {Cfg : Type} (verify : String → Cfg → List (String × JSVal) → Except String (List LintResult))
    (catalog : List (String × Schema)) (sourceCodes : List String) (config : Cfg) : RegistryRules :=
  let registry := mkRegistry (createConfigsForCoreRules catalog)
  let ruleSets := buildRuleSets registry
  lintFiles verify config ruleSets sourceCodes registry

/-- The schema `[{enum: ["always", "never"]}]` of the worked example. -/
def semiSchema : Schema :=
  Schema.arraySchema [SchemaOpt.mk (some [JSVal.str "always", JSVal.str "never"]) none [] false]

/-- The schema `[{type: "object", properties: {before: {type: "boolean"},
after: {type: "boolean"}}}]` of the worked example. -/
def objDemoSchema : Schema :=
  Schema.arraySchema [SchemaOpt.mk none (some "object")
    [("before", SchemaProp.mk none (some "boolean")),
     ("after", SchemaProp.mk none (some "boolean"))] false]

/-- A registry item with the given configuration value, specificity 1 and
no errors, for concrete batching examples. -/
def demoItem (n : Nat) : RegistryItem :=
  RegistryItem.mk (JSVal.num n) 1 0

/-- A concrete registry with three rules whose candidate lists have
lengths 3, 1 and 2. -/
def demoRegistry : RegistryRules :=
  [("ra", [demoItem 0, demoItem 1, demoItem 2]),
   ("rb", [demoItem 10]),
   ("rc", [demoItem 20, demoItem 21])]

/-- A schema with a 16-value enum: it expands to 17 candidates, above the
`MAX_CONFIG_COMBINATIONS` cap. -/
def bigSchema : Schema :=
  Schema.arraySchema [SchemaOpt.mk (some
    [JSVal.str "a01", JSVal.str "a02", JSVal.str "a03", JSVal.str "a04",
     JSVal.str "a05", JSVal.str "a06", JSVal.str "a07", JSVal.str "a08",
     JSVal.str "a09", JSVal.str "a10", JSVal.str "a11", JSVal.str "a12",
     JSVal.str "a13", JSVal.str "a14", JSVal.str "a15", JSVal.str "a16"]) none [] false]

/-- A linter stub that returns no diagnostics for every (file, batch)
pair. -/
def okVerify : String → Unit → List (String × JSVal) → Except String (List LintResult) :=
  fun _ _ _ => Except.ok []

/-- A linter stub that throws on every (file, batch) pair. -/
def failVerify : String → Unit → List (String × JSVal) → Except String (List LintResult) :=
  fun _ _ _ => Except.error "linter crashed"

/-- A registry whose single rule has two candidates, both with a recorded
error. -/
def allFailingRegistry : RegistryRules :=
  [("quotes", [RegistryItem.mk (JSVal.num 2) 1 3,
               RegistryItem.mk (JSVal.arr [JSVal.num 2, JSVal.str "single"]) 2 1])]

/-- A registry whose single rule has two distinct surviving candidates of
specificity 2. -/
def tiedRegistry : RegistryRules :=
  [("quotes", [RegistryItem.mk (JSVal.arr [JSVal.num 2, JSVal.str "single"]) 2 0,
               RegistryItem.mk (JSVal.arr [JSVal.num 2, JSVal.str "double"]) 2 0])]

/-! ### Helper lemmas -/

/-- In a map whose keys are distinct, a key determines its value. -/
lemma nodupKeys_val_eq {α : Type _} {l : List (String × α)} (h : (l.map Prod.fst).Nodup)
    {r : String} {a b : α} (ha : (r, a) ∈ l) (hb : (r, b) ∈ l) : a = b := by
  induction l with
  | nil => cases ha
  | cons q rest ih =>
      rw [List.map_cons, List.nodup_cons] at h
      rcases List.mem_cons.mp ha with ha1 | ha1 <;> rcases List.mem_cons.mp hb with hb1 | hb1
      · rw [← ha1] at hb1; exact congrArg Prod.snd hb1.symm
      · exact absurd (List.mem_map_of_mem Prod.fst hb1) (by rw [← ha1] at h; exact h.1)
      · exact absurd (List.mem_map_of_mem Prod.fst ha1) (by rw [← hb1] at h; exact h.1)
      · exact ih h.2 ha1 hb1

/-- Characterization of membership in one planned batch. -/
lemma mem_batchAt_iff {rules : RegistryRules} {i : Nat} {r : String} {c : JSVal} :
    (r, c) ∈ batchAt rules i ↔
      ∃ items item, (r, items) ∈ rules ∧ items.length ≤ MAX_CONFIG_COMBINATIONS ∧
        items[i]? = some item ∧ c = item.config := by
  unfold batchAt
  rw [List.mem_filterMap]
  constructor
  · rintro ⟨⟨a, items⟩, hp, hf⟩
    rw [Option.bind_eq_some] at hf
    obtain ⟨item, hget, hf⟩ := hf
    rw [Option.ite_none_right_eq_some, Option.some.injEq] at hf
    obtain ⟨hlen, heq⟩ := hf
    obtain ⟨rfl, rfl⟩ := Prod.mk.injEq .. ▸ heq
    exact ⟨items, item, hp, hlen, hget, rfl⟩
  · rintro ⟨items, item, hp, hlen, hget, rfl⟩
    refine ⟨(r, items), hp, ?_⟩
    rw [Option.bind_eq_some]
    exact ⟨item, hget, by rw [if_pos hlen]⟩

/-- The fold computing `longestEligibleLen`, with an arbitrary
accumulator. -/
lemma lt_foldl_eligible (l : RegistryRules) (init i : Nat) :
    (i < l.foldl (fun m p => if p.2.length ≤ MAX_CONFIG_COMBINATIONS then max m p.2.length else m) init ↔
      i < init ∨ ∃ p ∈ l, p.2.length ≤ MAX_CONFIG_COMBINATIONS ∧ i < p.2.length) := by
  induction l generalizing init with
  | nil => simp
  | cons q rest ih =>
      rw [List.foldl_cons, ih]
      by_cases hq : q.2.length ≤ MAX_CONFIG_COMBINATIONS
      · simp only [hq, if_true, lt_max_iff]
        constructor
        · rintro ((h | h) | ⟨p, hp, h1, h2⟩)
          · exact Or.inl h
          · exact Or.inr ⟨q, List.mem_cons_self q rest, hq, h⟩
          · exact Or.inr ⟨p, List.mem_cons_of_mem q hp, h1, h2⟩
        · rintro (h | ⟨p, hp, h1, h2⟩)
          · exact Or.inl (Or.inl h)
          · rcases List.mem_cons.mp hp with rfl | hp1
            · exact Or.inl (Or.inr h2)
            · exact Or.inr ⟨p, hp1, h1, h2⟩
      · rw [if_neg hq]
        constructor
        · rintro (h | ⟨p, hp, h1, h2⟩)
          · exact Or.inl h
          · exact Or.inr ⟨p, List.mem_cons_of_mem q hp, h1, h2⟩
        · rintro (h | ⟨p, hp, h1, h2⟩)
          · exact Or.inl h
          · rcases List.mem_cons.mp hp with rfl | hp1
            · exact absurd h1 hq
            · exact Or.inr ⟨p, hp1, h1, h2⟩

/-- A batch index is below `longestEligibleLen` exactly when some rule
within the cap still has a candidate at that index. -/
lemma lt_longestEligibleLen_iff (rules : RegistryRules) (i : Nat) :
    i < longestEligibleLen rules ↔
      ∃ p ∈ rules, p.2.length ≤ MAX_CONFIG_COMBINATIONS ∧ i < p.2.length := by
  unfold longestEligibleLen
  rw [lt_foldl_eligible]
  simp

/-- A planned batch is empty exactly when its index is past the longest
eligible candidate list. -/
lemma batchAt_eq_nil_iff (rules : RegistryRules) (i : Nat) :
    batchAt rules i = [] ↔ longestEligibleLen rules ≤ i := by
  rw [List.eq_nil_iff_forall_not_mem]
  constructor
  · intro h
    by_contra hlt
    rw [not_le] at hlt
    obtain ⟨p, hp, hle, hi⟩ := (lt_longestEligibleLen_iff rules i).mp hlt
    exact h (p.1, (p.2.get ⟨i, hi⟩).config)
      (mem_batchAt_iff.mpr ⟨p.2, p.2.get ⟨i, hi⟩, hp, hle, List.getElem?_eq_getElem hi, rfl⟩)
  · intro hle x hx
    obtain ⟨items, item, hmem, hl, hget, -⟩ := mem_batchAt_iff.mp (show (x.1, x.2) ∈ _ from hx)
    obtain ⟨hi, -⟩ := List.getElem?_eq_some_iff.mp hget
    exact absurd ((lt_longestEligibleLen_iff rules i).mpr ⟨(x.1, items), hmem, hl, hi⟩)
      (not_lt.mpr hle)

/-- The fueled `while` loop produces exactly the batches with indices
below `longestEligibleLen`, provided the fuel covers them. -/
lemma buildRuleSetsAux_eq (rules : RegistryRules) :
    ∀ fuel idx, longestEligibleLen rules ≤ idx + fuel →
      buildRuleSetsAux rules fuel idx =
        (List.range' idx (longestEligibleLen rules - idx)).map (batchAt rules) := by
  intro fuel
  induction fuel with
  | zero =>
      intro idx h
      rw [Nat.add_zero] at h
      rw [buildRuleSetsAux, Nat.sub_eq_zero_of_le h]
      rfl
  | succ fuel ih =>
      intro idx h
      rw [buildRuleSetsAux]
      rcases hb : batchAt rules idx with _ | ⟨b, bs⟩
      · rw [Nat.sub_eq_zero_of_le ((batchAt_eq_nil_iff rules idx).mp hb)]
        rfl
      · have hlt : idx < longestEligibleLen rules := by
          by_contra hge
          rw [not_lt] at hge
          rw [(batchAt_eq_nil_iff rules idx).mpr hge] at hb
          cases hb
        have hsub : longestEligibleLen rules - idx = (longestEligibleLen rules - (idx + 1)) + 1 := by
          omega
        rw [hsub, List.range'_succ, List.map_cons, hb, ih (idx + 1) (by omega)]

/-- The batch list is the map of `batchAt` over the productive indices. -/
lemma buildRuleSets_eq_map_range (rules : RegistryRules) :
    buildRuleSets rules = (List.range (longestEligibleLen rules)).map (batchAt rules) := by
  rw [buildRuleSets, buildRuleSetsAux_eq rules (longestEligibleLen rules + 1) 0 (by omega),
    Nat.sub_zero, List.range_eq_range']

/-- Characterization of membership in a freshly built registry. -/
lemma mem_mkRegistry_iff {rc : List (String × List JSVal)} {r : String}
    {items : List RegistryItem} :
    (r, items) ∈ mkRegistry rc ↔
      ∃ cfgs, (r, cfgs) ∈ rc ∧
        items = cfgs.map (fun c => RegistryItem.mk c (lengthOr1 c) 0) := by
  unfold mkRegistry
  rw [List.mem_map]
  constructor
  · rintro ⟨⟨a, cfgs⟩, hmem, heq⟩
    rw [Prod.mk.injEq] at heq
    obtain ⟨rfl, rfl⟩ := heq
    exact ⟨cfgs, hmem, rfl⟩
  · rintro ⟨cfgs, hmem, rfl⟩
    exact ⟨(r, cfgs), hmem, rfl⟩

/-- Building the registry does not change the rule ids. -/
lemma mkRegistry_keys (rc : List (String × List JSVal)) :
    (mkRegistry rc).map Prod.fst = rc.map Prod.fst := by
  unfold mkRegistry
  rw [List.map_map]
  rfl

/-- Characterization of membership in a stripped registry. -/
lemma mem_stripFailingConfigs_iff {rules : RegistryRules} {r : String}
    {kept : List RegistryItem} :
    (r, kept) ∈ stripFailingConfigs rules ↔
      ∃ items, (r, items) ∈ rules ∧
        kept = items.filter (fun it => it.errorCount = 0) ∧ kept ≠ [] := by
  unfold stripFailingConfigs
  rw [List.mem_filterMap]
  constructor
  · rintro ⟨⟨a, items⟩, hmem, hf⟩
    dsimp only at hf
    rw [Option.ite_none_right_eq_some, Option.some.injEq, Prod.mk.injEq] at hf
    obtain ⟨hlen, rfl, rfl⟩ := hf
    exact ⟨items, hmem, rfl, by
      intro h
      rw [h] at hlen
      exact Nat.lt_irrefl 0 hlen⟩
  · rintro ⟨items, hmem, rfl, hne⟩
    refine ⟨(r, items), hmem, ?_⟩
    dsimp only
    rw [if_pos (List.length_pos.mpr hne)]

/-- Characterization of membership in the unique-candidate query. -/
lemma mem_getRulesWithOneConfig_iff {rules : RegistryRules} {r : String} {c : JSVal} :
    (r, c) ∈ getRulesWithOneConfig rules ↔
      ∃ item, (r, [item]) ∈ rules ∧ c = item.config := by
  unfold getRulesWithOneConfig
  rw [List.mem_filterMap]
  constructor
  · rintro ⟨⟨a, items⟩, hmem, hf⟩
    dsimp only at hf
    by_cases h1 : items.length = 1
    · rw [if_pos h1, Option.map_eq_some'] at hf
      obtain ⟨item, hget, heq⟩ := hf
      rw [Prod.mk.injEq] at heq
      obtain ⟨rfl, rfl⟩ := heq
      obtain ⟨item0, rfl⟩ := List.length_eq_one.mp h1
      obtain rfl : item0 = item := by
        have := hget
        rw [show ([item0])[0]? = some item0 from rfl, Option.some.injEq] at this
        exact this
      exact ⟨item0, hmem, rfl⟩
    · rw [if_neg h1] at hf
      cases hf
  · rintro ⟨item, hmem, rfl⟩
    exact ⟨(r, [item]), hmem, rfl⟩

/-- Characterization of membership in the specificity query. -/
lemma mem_getRulesWithSpecificity_iff {rules : RegistryRules} {n : Nat} {r : String} {c : JSVal} :
    (r, c) ∈ getRulesWithSpecificity rules n ↔
      ∃ items item, (r, items) ∈ rules ∧
        items.filter (fun it => it.specificity = n) = [item] ∧ c = item.config := by
  unfold getRulesWithSpecificity
  rw [List.mem_filterMap]
  constructor
  · rintro ⟨⟨a, items⟩, hmem, hf⟩
    dsimp only at hf
    by_cases h1 : (items.filter (fun it => it.specificity = n)).length = 1
    · rw [if_pos h1, Option.map_eq_some'] at hf
      obtain ⟨item, hget, heq⟩ := hf
      rw [Prod.mk.injEq] at heq
      obtain ⟨rfl, rfl⟩ := heq
      obtain ⟨item0, hfe⟩ := List.length_eq_one.mp h1
      obtain rfl : item0 = item := by
        have := hget
        rw [hfe, show ([item0])[0]? = some item0 from rfl, Option.some.injEq] at this
        exact this
      exact ⟨items, item0, hmem, hfe, rfl⟩
    · rw [if_neg h1] at hf
      cases hf
  · rintro ⟨items, item, hmem, hfe, rfl⟩
    refine ⟨(r, items), hmem, ?_⟩
    dsimp only
    rw [hfe]
    rfl

/-- Characterization of membership in the expanded default catalog. -/
lemma mem_createConfigsForCoreRules_iff {ruleList : List (String × Schema)} {r : String}
    {cfgs : List JSVal} :
    (r, cfgs) ∈ createConfigsForCoreRules ruleList ↔
      ∃ schema, (r, schema) ∈ ruleList ∧ r ∉ ruleBlacklist ∧
        cfgs = generateConfigsFromSchema schema := by
  unfold createConfigsForCoreRules
  rw [List.mem_filterMap]
  constructor
  · rintro ⟨⟨a, schema⟩, hmem, hf⟩
    dsimp only at hf
    by_cases hb : a ∈ ruleBlacklist
    · rw [if_pos hb] at hf
      cases hf
    · rw [if_neg hb, Option.some.injEq, Prod.mk.injEq] at hf
      obtain ⟨rfl, rfl⟩ := hf
      exact ⟨schema, hmem, hb, rfl⟩
  · rintro ⟨schema, hmem, hb, rfl⟩
    exact ⟨(r, schema), hmem, by dsimp only; rw [if_neg hb]⟩

/-- An error-count increment for one rule id leaves every entry with a
different rule id untouched. -/
lemma bumpError_mem_iff {rules rules2 : RegistryRules} {ruleId : String} {idx : Nat}
    (h : bumpError rules ruleId idx = some rules2)
    {p : String × List RegistryItem} (hp : p.1 ≠ ruleId) :
    p ∈ rules2 ↔ p ∈ rules := by
  induction rules generalizing rules2 with
  | nil => cases h
  | cons q rest ih =>
      rw [bumpError] at h
      by_cases hq : q.1 = ruleId
      · rw [if_pos hq, Option.map_eq_some'] at h
        obtain ⟨item, -, rfl⟩ := h
        rw [List.mem_cons, List.mem_cons]
        constructor
        · rintro (heq | hm)
          · exact absurd (by rw [heq]; exact hq) hp
          · exact Or.inr hm
        · rintro (heq | hm)
          · exact absurd (by rw [heq]; exact hq) hp
          · exact Or.inr hm
      · rw [if_neg hq, Option.map_eq_some'] at h
        obtain ⟨rest2, hrest, rfl⟩ := h
        rw [List.mem_cons, List.mem_cons, ih hrest]

/-- Attributing a batch of diagnostics that never names a given rule id
leaves that rule's registry entries untouched. -/
lemma applyResults_mem_iff {idx : Nat} {results : List LintResult}
    {p : String × List RegistryItem} (hres : ∀ d ∈ results, d.ruleId ≠ p.1) :
    ∀ rules, p ∈ applyResults rules idx results ↔ p ∈ rules := by
  induction results with
  | nil => intro rules; exact Iff.rfl
  | cons d rest ih =>
      intro rules
      rcases hb : bumpError rules d.ruleId idx with _ | rules2
      · rw [applyResults, hb]
      · rw [applyResults, hb]
        rw [ih (fun e he => hres e (List.mem_cons_of_mem d he)) rules2]
        exact bumpError_mem_iff hb (fun heq => hres d (List.mem_cons_self d rest) heq.symm)

/-- The second component of an `enum` entry is a list element. -/
lemma snd_mem_of_mem_enum {α : Type _} {l : List α} {i : Nat} {x : α}
    (h : (i, x) ∈ l.enum) : x ∈ l := by
  obtain ⟨hi, hx⟩ := List.mem_enum h
  rw [hx]
  exact List.getElem_mem hi

/-- Evaluating the batches of one file cannot touch the entries of a rule
that appears in no batch, provided the linter only reports rules present
in the batch it was given. -/
lemma lintBatches_mem_iff {Cfg : Type}
    {verify : String → Cfg → List (String × JSVal) → Except String (List LintResult)}
    {config : Cfg} {f : String} {r : String}
    (honest : ∀ fn c rs res, verify fn c rs = Except.ok res → ∀ d ∈ res, ∃ v, (d.ruleId, v) ∈ rs) :
    ∀ (bl : List (Nat × List (String × JSVal))),
      (∀ i rs, (i, rs) ∈ bl → ∀ v, (r, v) ∉ rs) →
      ∀ rules (p : String × List RegistryItem), p.1 = r →
        (p ∈ lintBatches verify config f bl rules ↔ p ∈ rules) := by
  intro bl
  induction bl with
  | nil => intro _ rules p _; exact Iff.rfl
  | cons b rest ih =>
      obtain ⟨i, rs⟩ := b
      intro hb rules p hp
      rcases hv : verify f config rs with e | res
      · rw [lintBatches, hv]
        exact ih (fun j rs2 hm => hb j rs2 (List.mem_cons_of_mem _ hm)) rules p hp
      · rw [lintBatches, hv]
        rw [ih (fun j rs2 hm => hb j rs2 (List.mem_cons_of_mem _ hm)) _ p hp]
        refine applyResults_mem_iff (fun d hd heq => ?_) rules
        obtain ⟨v, hvmem⟩ := honest f config rs res hv d hd
        rw [heq, hp] at hvmem
        exact hb i rs (List.mem_cons_self _ rest) v hvmem

/-- Full-run version of the preceding lemma: over every file and batch,
the entries of a rule appearing in no batch are untouched. -/
lemma lintFiles_mem_iff {Cfg : Type}
    {verify : String → Cfg → List (String × JSVal) → Except String (List LintResult)}
    {config : Cfg} {r : String}
    (honest : ∀ fn c rs res, verify fn c rs = Except.ok res → ∀ d ∈ res, ∃ v, (d.ruleId, v) ∈ rs)
    {ruleSets : List (List (String × JSVal))}
    (hrs : ∀ b ∈ ruleSets, ∀ v, (r, v) ∉ b) :
    ∀ (files : List String) rules (p : String × List RegistryItem), p.1 = r →
      (p ∈ lintFiles verify config ruleSets files rules ↔ p ∈ rules) := by
  intro files
  induction files with
  | nil => intro rules p _; exact Iff.rfl
  | cons f rest ih =>
      intro rules p hp
      rw [lintFiles]
      rw [ih _ p hp]
      exact lintBatches_mem_iff honest ruleSets.enum
        (fun i rs hm => hrs rs (snd_mem_of_mem_enum hm)) rules p hp

/-- Every result of `combineArrays` is an array. -/
lemma mem_combineArrays_arr {a b : List JSVal} {c : JSVal} (h : c ∈ combineArrays a b) :
    ∃ es, c = JSVal.arr es := by
  rcases a with _ | ⟨x, xs⟩
  · rw [show combineArrays [] b = explodeArray b from by simp only [combineArrays]] at h
    obtain ⟨v, -, hv⟩ := List.mem_map.mp h
    exact ⟨[v], hv.symm⟩
  · rcases b with _ | ⟨y, ys⟩
    · rw [show combineArrays (x :: xs) [] = explodeArray (x :: xs) from by
        simp only [combineArrays]] at h
      obtain ⟨v, -, hv⟩ := List.mem_map.mp h
      exact ⟨[v], hv.symm⟩
    · rw [show combineArrays (x :: xs) (y :: ys) =
          (x :: xs).flatMap (fun x1 => (y :: ys).map (fun x2 =>
            JSVal.arr (concatSpread x1 ++ concatSpread x2))) from by simp only [combineArrays]] at h
      obtain ⟨x1, -, hm⟩ := List.mem_flatMap.mp h
      obtain ⟨x2, -, hv⟩ := List.mem_map.mp hm
      exact ⟨_, hv.symm⟩

/-- Processing one option descriptor only ever appends array configs. -/
lemma applyOpt_arr {configs : List JSVal} {opt : SchemaOpt}
    (h : ∀ c ∈ configs, ∃ es, c = JSVal.arr es) :
    ∀ c ∈ applyOpt configs opt, ∃ es, c = JSVal.arr es := by
  intro c hc
  have henum : ∀ c0, (c0 ∈ match opt.enumVals with
      | some es => addEnums configs es
      | none => configs) → ∃ es, c0 = JSVal.arr es := by
    rcases opt.enumVals with _ | es
    · exact h
    · intro c0 hc0
      rcases List.mem_append.mp hc0 with hm | hm
      · exact h c0 hm
      · exact mem_combineArrays_arr hm
  rw [applyOpt] at hc
  by_cases hobj : opt.propType = some "object"
  · rw [if_pos hobj] at hc
    rcases List.mem_append.mp hc with hm | hm
    · exact henum c hm
    · exact mem_combineArrays_arr hm
  · rw [if_neg hobj] at hc
    exact henum c hc

/-- All configs accumulated by the descriptor loop are arrays. -/
lemma foldl_applyOpt_arr (opts : List SchemaOpt) :
    ∀ configs, (∀ c ∈ configs, ∃ es, c = JSVal.arr es) →
      ∀ c ∈ opts.foldl applyOpt configs, ∃ es, c = JSVal.arr es := by
  induction opts with
  | nil => intro configs h; exact h
  | cons o rest ih =>
      intro configs h
      rw [List.foldl_cons]
      exact ih _ (applyOpt_arr h)

/-- Replacing a throwing linter call by one returning zero diagnostics
does not change the evaluation of one file's batches. -/
lemma lintBatches_congr {Cfg : Type}
    {verify verify2 : String → Cfg → List (String × JSVal) → Except String (List LintResult)}
    {config : Cfg} {f : String}
    (h : ∀ fn rs, verify2 fn config rs = verify fn config rs ∨
      ((∃ e, verify fn config rs = Except.error e) ∧ verify2 fn config rs = Except.ok [])) :
    ∀ (bl : List (Nat × List (String × JSVal))) rules,
      lintBatches verify config f bl rules = lintBatches verify2 config f bl rules := by
  intro bl
  induction bl with
  | nil => intro rules; rfl
  | cons b rest ih =>
      obtain ⟨i, rs⟩ := b
      intro rules
      rcases h f rs with heq | ⟨⟨e, herr⟩, hok⟩
      · rw [lintBatches, lintBatches, heq]
        exact ih _
      · rw [lintBatches, lintBatches, herr, hok]
        exact ih _

/-- Full-run version of the preceding congruence. -/
lemma lintFiles_congr {Cfg : Type}
    {verify verify2 : String → Cfg → List (String × JSVal) → Except String (List LintResult)}
    {config : Cfg}
    (h : ∀ fn rs, verify2 fn config rs = verify fn config rs ∨
      ((∃ e, verify fn config rs = Except.error e) ∧ verify2 fn config rs = Except.ok []))
    (ruleSets : List (List (String × JSVal))) :
    ∀ (files : List String) rules,
      lintFiles verify config ruleSets files rules = lintFiles verify2 config ruleSets files rules := by
  intro files
  induction files with
  | nil => intro rules; rfl
  | cons f rest ih =>
      intro rules
      rw [lintFiles, lintFiles, lintBatches_congr h ruleSets.enum rules]
      exact ih _

/-! ### The claims -/

/-- C1: for the schema `[{enum: ["always", "never"]}]`, expansion yields
exactly the three candidates — the severity-only candidate (severity 2,
written bare by `addErrorSeverity`), then severity plus "always", then
severity plus "never" — and wrapping them in a registry assigns them the
specificities 1, 2, 2 in that order. -/
theorem enum_schema_expansion :
    generateConfigsFromSchema semiSchema =
      [JSVal.num 2, JSVal.arr [JSVal.num 2, JSVal.str "always"],
        JSVal.arr [JSVal.num 2, JSVal.str "never"]]
    ∧ mkRegistry [("semi", generateConfigsFromSchema semiSchema)] =
        [("semi",
          [RegistryItem.mk (JSVal.num 2) 1 0,
           RegistryItem.mk (JSVal.arr [JSVal.num 2, JSVal.str "always"]) 2 0,
           RegistryItem.mk (JSVal.arr [JSVal.num 2, JSVal.str "never"]) 2 0])]
    ∧ (mkRegistry [("semi", generateConfigsFromSchema semiSchema)]).map
        (fun p => p.2.map RegistryItem.specificity) = [[1, 2, 2]] :=
  ⟨rfl, rfl, rfl⟩

/-- C2: the batch list has exactly `longestEligibleLen` batches — the
length of the longest candidate list within the cap — and batch `i`
contains exactly the `i`-th candidates of the rules whose candidate list
is within the cap and has more than `i` entries; in particular the
3/1/2-length demo registry yields exactly the three expected batches. -/
theorem buildRuleSets_spec (rules : RegistryRules) :
    (buildRuleSets rules).length = longestEligibleLen rules
    ∧ (∀ i, i < longestEligibleLen rules ↔
        ∃ p ∈ rules, p.2.length ≤ MAX_CONFIG_COMBINATIONS ∧ i < p.2.length)
    ∧ (∀ i r c, (r, c) ∈ (buildRuleSets rules).getD i [] ↔
        ∃ items item, (r, items) ∈ rules ∧ items.length ≤ MAX_CONFIG_COMBINATIONS ∧
          items[i]? = some item ∧ c = item.config)
    ∧ buildRuleSets demoRegistry =
        [[("ra", JSVal.num 0), ("rb", JSVal.num 10), ("rc", JSVal.num 20)],
         [("ra", JSVal.num 1), ("rc", JSVal.num 21)],
         [("ra", JSVal.num 2)]] := by
  refine ⟨?_, fun i => lt_longestEligibleLen_iff rules i, ?_, rfl⟩
  · rw [buildRuleSets_eq_map_range, List.length_map, List.length_range]
  · intro i r c
    rw [buildRuleSets_eq_map_range, List.getD_eq_getElem?_getD, List.getElem?_map]
    by_cases hi : i < longestEligibleLen rules
    · rw [List.getElem?_range hi]
      simp only [Option.map_some', Option.getD_some]
      exact mem_batchAt_iff
    · have hnone : (List.range (longestEligibleLen rules))[i]? = none := by
        rw [List.getElem?_eq_none_iff, List.length_range]
        omega
      rw [hnone]
      simp only [Option.map_none', Option.getD_none]
      constructor
      · intro hx
        exact absurd hx (List.not_mem_nil _)
      · rintro ⟨items, item, hmem, hlen, hget, -⟩
        obtain ⟨hi2, -⟩ := List.getElem?_eq_some_iff.mp hget
        exact absurd ((lt_longestEligibleLen_iff rules i).mpr ⟨(r, items), hmem, hlen, hi2⟩) hi

/-- Instantiation of the C2 theorem on the concrete demo registry. -/
theorem buildRuleSets_spec_witness :
    (buildRuleSets demoRegistry).length = longestEligibleLen demoRegistry :=
  (buildRuleSets_spec demoRegistry).1

/-- C3 counterexample: a rule whose schema expands to 17 candidates (one
above the cap) is never batched — yet after a full evaluation pass (here
over an empty corpus, which leaves every error count at zero) and
stripping, the specificity-1 query still selects it, because its
severity-only candidate is its unique specificity-1 candidate.  So "never
selected" is false. -/
theorem big_rule_selected_at_specificity_one :
    MAX_CONFIG_COMBINATIONS < (generateConfigsFromSchema bigSchema).length
    ∧ getRulesWithSpecificity
        (stripFailingConfigs (lintWithConfigs okVerify [("big", bigSchema)] [] ())) 1
      = [("big", JSVal.num 2)] :=
  ⟨by decide, rfl⟩

/-- C3 (amended): a rule with more than `MAX_CONFIG_COMBINATIONS`
candidates appears in no batch, and — when the linter only reports rules
present in the batch it was given — it is also never selected by
`getRulesWithOneConfig` after evaluation and stripping (its untouched
candidate list keeps all its more-than-16 entries). -/
theorem big_rule_never_batched {Cfg : Type}
    (verify : String → Cfg → List (String × JSVal) → Except String (List LintResult))
    (catalog : List (String × Schema)) (sourceCodes : List String) (config : Cfg)
    (r : String) (cfgs : List JSVal)
    (hkeys : ((createConfigsForCoreRules catalog).map Prod.fst).Nodup)
    (hmem : (r, cfgs) ∈ createConfigsForCoreRules catalog)
    (hbig : MAX_CONFIG_COMBINATIONS < cfgs.length)
    (honest : ∀ fn c rs res, verify fn c rs = Except.ok res →
      ∀ d ∈ res, ∃ v, (d.ruleId, v) ∈ rs) :
    (∀ b ∈ buildRuleSets (mkRegistry (createConfigsForCoreRules catalog)), ∀ v, (r, v) ∉ b)
    ∧ (∀ v, (r, v) ∉ getRulesWithOneConfig
        (stripFailingConfigs (lintWithConfigs verify catalog sourceCodes config))) := by
  have hkeys2 : ((mkRegistry (createConfigsForCoreRules catalog)).map Prod.fst).Nodup := by
    rw [mkRegistry_keys]
    exact hkeys
  have hbatch : ∀ b ∈ buildRuleSets (mkRegistry (createConfigsForCoreRules catalog)),
      ∀ v, (r, v) ∉ b := by
    intro b hb v hv
    rw [buildRuleSets_eq_map_range] at hb
    obtain ⟨i, -, rfl⟩ := List.mem_map.mp hb
    obtain ⟨items, item, hmem2, hlen, -, -⟩ := mem_batchAt_iff.mp hv
    obtain ⟨cfgs2, hmem3, rfl⟩ := mem_mkRegistry_iff.mp hmem2
    obtain rfl : cfgs2 = cfgs := nodupKeys_val_eq hkeys hmem3 hmem
    rw [List.length_map] at hlen
    exact absurd hlen (not_le.mpr hbig)
  refine ⟨hbatch, ?_⟩
  intro v hv
  obtain ⟨item, hsm, -⟩ := mem_getRulesWithOneConfig_iff.mp hv
  obtain ⟨items1, hfm, hfilter, -⟩ := mem_stripFailingConfigs_iff.mp hsm
  rw [show lintWithConfigs verify catalog sourceCodes config
      = lintFiles verify config (buildRuleSets (mkRegistry (createConfigsForCoreRules catalog)))
          sourceCodes (mkRegistry (createConfigsForCoreRules catalog)) from rfl] at hfm
  have hfm2 : (r, items1) ∈ mkRegistry (createConfigsForCoreRules catalog) :=
    (lintFiles_mem_iff honest hbatch sourceCodes _ (r, items1) rfl).mp hfm
  have hinit : (r, cfgs.map (fun c => RegistryItem.mk c (lengthOr1 c) 0)) ∈
      mkRegistry (createConfigsForCoreRules catalog) :=
    mem_mkRegistry_iff.mpr ⟨cfgs, hmem, rfl⟩
  obtain rfl : items1 = cfgs.map (fun c => RegistryItem.mk c (lengthOr1 c) 0) :=
    nodupKeys_val_eq hkeys2 hfm2 hinit
  have hall : (cfgs.map (fun c => RegistryItem.mk c (lengthOr1 c) 0)).filter
      (fun it => it.errorCount = 0) = cfgs.map (fun c => RegistryItem.mk c (lengthOr1 c) 0) := by
    rw [List.filter_eq_self]
    intro a ha
    obtain ⟨c0, -, rfl⟩ := List.mem_map.mp ha
    rfl
  rw [hall] at hfilter
  have hlen1 : ([item] : List RegistryItem).length
      = (cfgs.map (fun c => RegistryItem.mk c (lengthOr1 c) 0)).length :=
    congrArg List.length hfilter
  rw [List.length_singleton, List.length_map] at hlen1
  rw [show MAX_CONFIG_COMBINATIONS = 16 from rfl] at hbig
  omega

/-- Instantiation of the amended C3 theorem on the concrete 17-candidate
rule. -/
theorem big_rule_never_batched_witness :
    ("big", JSVal.num 2) ∉ getRulesWithOneConfig
      (stripFailingConfigs (lintWithConfigs okVerify [("big", bigSchema)] [] ())) :=
  (big_rule_never_batched okVerify [("big", bigSchema)] [] () "big"
    (generateConfigsFromSchema bigSchema)
    (by decide)
    (by
      show _ ∈ [("big", generateConfigsFromSchema bigSchema)]
      exact List.mem_singleton.mpr rfl)
    (by decide)
    (fun fn c rs res h d hd => by
      rw [show okVerify fn c rs = Except.ok [] from rfl, Except.ok.injEq] at h
      rw [← h] at hd
      exact absurd hd (List.not_mem_nil d))).2 (JSVal.num 2)

/-- C4: after stripping, a surviving rule holds exactly its error-free
candidates in their original order, and a rule with no error-free
candidate disappears from the registry entirely. -/
theorem stripFailingConfigs_spec (rules : RegistryRules)
    (hkeys : (rules.map Prod.fst).Nodup) :
    (∀ r kept, (r, kept) ∈ stripFailingConfigs rules ↔
      ∃ items, (r, items) ∈ rules ∧
        kept = items.filter (fun it => it.errorCount = 0) ∧ kept ≠ [])
    ∧ (∀ r items, (r, items) ∈ rules → (∀ it ∈ items, it.errorCount ≠ 0) →
        ∀ kept, (r, kept) ∉ stripFailingConfigs rules) := by
  refine ⟨fun r kept => mem_stripFailingConfigs_iff, ?_⟩
  intro r items hmem hall kept hkept
  obtain ⟨items2, hmem2, hf, hne⟩ := mem_stripFailingConfigs_iff.mp hkept
  obtain rfl : items2 = items := nodupKeys_val_eq hkeys hmem2 hmem
  apply hne
  rw [hf, List.filter_eq_nil_iff]
  intro it hit
  simpa using hall it hit

/-- Instantiation of the C4 theorem: the all-failing demo rule is gone
from the stripped registry. -/
theorem stripFailingConfigs_spec_witness :
    ("quotes", ([] : List RegistryItem)) ∉ stripFailingConfigs allFailingRegistry :=
  (stripFailingConfigs_spec allFailingRegistry (by decide)).2 "quotes"
    [RegistryItem.mk (JSVal.num 2) 1 3,
     RegistryItem.mk (JSVal.arr [JSVal.num 2, JSVal.str "single"]) 2 1]
    (by
      show _ ∈ [("quotes", [RegistryItem.mk (JSVal.num 2) 1 3,
        RegistryItem.mk (JSVal.arr [JSVal.num 2, JSVal.str "single"]) 2 1])]
      exact List.mem_singleton.mpr rfl)
    (by
      intro it hit
      rcases List.mem_cons.mp hit with rfl | hit2
      · exact Nat.succ_ne_zero 2
      · rcases List.mem_cons.mp hit2 with rfl | hit3
        · exact Nat.succ_ne_zero 0
        · exact absurd hit3 (List.not_mem_nil it))
    []

/-- C5: for every schema, the candidate list is non-empty, starts with
the bare severity 2 (the severity-only candidate, of specificity 1), and
every other candidate is an array with the severity 2 prefixed onto its
accumulated option values. -/
theorem generateConfigs_severity_shape (schema : Schema) :
    ∃ rest, generateConfigsFromSchema schema = JSVal.num 2 :: rest
      ∧ lengthOr1 (JSVal.num 2) = 1
      ∧ ∀ c ∈ rest, ∃ opts, c = JSVal.arr (JSVal.num 2 :: opts) := by
  have hsplit : ∃ base : List JSVal,
      generateConfigsFromSchema schema = JSVal.num 2 :: base.map (jsUnshift 2)
      ∧ ∀ c0 ∈ base, ∃ es, c0 = JSVal.arr es := by
    rcases schema with opts | opts | _
    · exact ⟨opts.foldl applyOpt [], rfl,
        fun c0 h => foldl_applyOpt_arr opts [] (fun c hc => absurd hc (List.not_mem_nil c)) c0 h⟩
    · exact ⟨[], rfl, fun c0 h => absurd h (List.not_mem_nil c0)⟩
    · exact ⟨[], rfl, fun c0 h => absurd h (List.not_mem_nil c0)⟩
  obtain ⟨base, heq, hbase⟩ := hsplit
  refine ⟨base.map (jsUnshift 2), heq, rfl, ?_⟩
  intro c hc
  obtain ⟨c0, hc0, rfl⟩ := List.mem_map.mp hc
  obtain ⟨es, rfl⟩ := hbase c0 hc0
  exact ⟨es, rfl⟩

/-- Instantiation of the C5 theorem on the enum demo schema. -/
theorem generateConfigs_severity_shape_witness :
    ∃ rest, generateConfigsFromSchema semiSchema = JSVal.num 2 :: rest
      ∧ lengthOr1 (JSVal.num 2) = 1
      ∧ ∀ c ∈ rest, ∃ opts, c = JSVal.arr (JSVal.num 2 :: opts) :=
  generateConfigs_severity_shape semiSchema

/-- C6: the two-boolean object schema expands to exactly five candidates:
the severity-only candidate plus the four true/false combinations of the
properties, the combinations arising from grouping the single-key option
objects by property and combining the groups via Cartesian product
(2 times 2 objects). -/
theorem object_schema_expansion :
    generateConfigsFromSchema objDemoSchema =
      [JSVal.num 2,
       JSVal.arr [JSVal.num 2,
         JSVal.obj [("before", JSVal.boolVal true), ("after", JSVal.boolVal true)]],
       JSVal.arr [JSVal.num 2,
         JSVal.obj [("before", JSVal.boolVal true), ("after", JSVal.boolVal false)]],
       JSVal.arr [JSVal.num 2,
         JSVal.obj [("before", JSVal.boolVal false), ("after", JSVal.boolVal true)]],
       JSVal.arr [JSVal.num 2,
         JSVal.obj [("before", JSVal.boolVal false), ("after", JSVal.boolVal false)]]]
    ∧ groupByProperty
        [JSVal.obj [("before", JSVal.boolVal true)], JSVal.obj [("before", JSVal.boolVal false)],
         JSVal.obj [("after", JSVal.boolVal true)], JSVal.obj [("after", JSVal.boolVal false)]] =
        [[JSVal.obj [("before", JSVal.boolVal true)], JSVal.obj [("before", JSVal.boolVal false)]],
         [JSVal.obj [("after", JSVal.boolVal true)], JSVal.obj [("after", JSVal.boolVal false)]]]
    ∧ (combinePropertyObjects
        [JSVal.obj [("before", JSVal.boolVal true)], JSVal.obj [("before", JSVal.boolVal false)]]
        [JSVal.obj [("after", JSVal.boolVal true)], JSVal.obj [("after", JSVal.boolVal false)]]).length
      = 2 * 2 :=
  ⟨rfl, rfl, rfl⟩

/-- C7: the specificity query returns a rule exactly when its surviving
candidate list has exactly one candidate of the requested specificity,
with that candidate's configuration; a rule with two or more candidates
at that specificity is excluded. -/
theorem getRulesWithSpecificity_spec (rules : RegistryRules) (n : Nat)
    (hkeys : (rules.map Prod.fst).Nodup) :
    (∀ r c, (r, c) ∈ getRulesWithSpecificity rules n ↔
      ∃ items item, (r, items) ∈ rules ∧
        items.filter (fun it => it.specificity = n) = [item] ∧ c = item.config)
    ∧ (∀ r items, (r, items) ∈ rules →
        2 ≤ (items.filter (fun it => it.specificity = n)).length →
        ∀ c, (r, c) ∉ getRulesWithSpecificity rules n) := by
  refine ⟨fun r c => mem_getRulesWithSpecificity_iff, ?_⟩
  intro r items hmem h2 c hc
  obtain ⟨items2, item, hmem2, hfe, -⟩ := mem_getRulesWithSpecificity_iff.mp hc
  obtain rfl : items2 = items := nodupKeys_val_eq hkeys hmem2 hmem
  rw [hfe, List.length_singleton] at h2
  omega

/-- Instantiation of the C7 theorem: the rule with two surviving
specificity-2 candidates is excluded from the specificity-2 query. -/
theorem getRulesWithSpecificity_spec_witness :
    ("quotes", JSVal.arr [JSVal.num 2, JSVal.str "single"]) ∉
      getRulesWithSpecificity tiedRegistry 2 :=
  (getRulesWithSpecificity_spec tiedRegistry 2 (by decide)).2 "quotes"
    [RegistryItem.mk (JSVal.arr [JSVal.num 2, JSVal.str "single"]) 2 0,
     RegistryItem.mk (JSVal.arr [JSVal.num 2, JSVal.str "double"]) 2 0]
    (by
      show _ ∈ [("quotes", [RegistryItem.mk (JSVal.arr [JSVal.num 2, JSVal.str "single"]) 2 0,
        RegistryItem.mk (JSVal.arr [JSVal.num 2, JSVal.str "double"]) 2 0])]
      exact List.mem_singleton.mpr rfl)
    (by decide)
    (JSVal.arr [JSVal.num 2, JSVal.str "single"])

/-- C8: evaluation is fail-open — a linter that throws on some (file,
batch) pairs produces exactly the same registry as one that returns zero
diagnostics on those pairs and agrees elsewhere; the thrown error is
absorbed, nothing is incremented for that pair, and the run continues
over the remaining batches and files. -/
theorem lint_evaluation_failOpen {Cfg : Type}
    (verify verify2 : String → Cfg → List (String × JSVal) → Except String (List LintResult))
    (catalog : List (String × Schema)) (sourceCodes : List String) (config : Cfg)
    (h : ∀ fn rs, verify2 fn config rs = verify fn config rs ∨
      ((∃ e, verify fn config rs = Except.error e) ∧ verify2 fn config rs = Except.ok [])) :
    lintWithConfigs verify catalog sourceCodes config
      = lintWithConfigs verify2 catalog sourceCodes config :=
  lintFiles_congr h (buildRuleSets (mkRegistry (createConfigsForCoreRules catalog)))
    sourceCodes (mkRegistry (createConfigsForCoreRules catalog))

/-- Instantiation of the C8 theorem: an always-throwing linter and an
always-empty linter produce identical registries. -/
theorem lint_evaluation_failOpen_witness :
    lintWithConfigs failVerify [("semi", semiSchema)] ["a.js"] ()
      = lintWithConfigs okVerify [("semi", semiSchema)] ["a.js"] () :=
  lint_evaluation_failOpen failVerify okVerify [("semi", semiSchema)] ["a.js"] ()
    (fun _fn _rs => Or.inr ⟨⟨"linter crashed", rfl⟩, rfl⟩)

/-- C9 counterexample: the deny-list is the hard-coded module constant
`ruleBlacklist`; with no caller-supplied deny-list anywhere in play,
building the candidate map over a catalog containing
"lines-around-comment" silently omits that rule. -/
theorem blacklist_hardcoded_cex :
    createConfigsForCoreRules [("lines-around-comment", Schema.absent)] = []
    ∧ ruleBlacklist = ["lines-around-comment"] :=
  ⟨rfl, rfl⟩

/-- C9 (amended): for every catalog, the candidate map contains exactly
the catalog rules whose id is outside the fixed module-level
`ruleBlacklist` constant, each expanded from its schema; the exclusion is
not a caller-supplied parameter. -/
theorem createConfigsForCoreRules_spec (ruleList : List (String × Schema)) :
    ∀ r cfgs, (r, cfgs) ∈ createConfigsForCoreRules ruleList ↔
      ∃ schema, (r, schema) ∈ ruleList ∧ r ∉ ruleBlacklist ∧
        cfgs = generateConfigsFromSchema schema :=
  fun _ _ => mem_createConfigsForCoreRules_iff

/-- Instantiation of the amended C9 theorem: a rule outside the constant
deny-list is expanded. -/
theorem createConfigsForCoreRules_spec_witness :
    ("semi", generateConfigsFromSchema semiSchema) ∈
      createConfigsForCoreRules [("semi", semiSchema)] :=
  (createConfigsForCoreRules_spec [("semi", semiSchema)] "semi"
    (generateConfigsFromSchema semiSchema)).mpr
    ⟨semiSchema,
      by
        show _ ∈ [("semi", semiSchema)]
        exact List.mem_singleton.mpr rfl,
      by decide, rfl⟩

/-- C10: a non-array schema (object-form, with all its descriptors
ignored, or absent) expands to the single bare severity value 2, which
the registry constructor wraps with specificity 1 via the
`config.length || 1` fallback. -/
theorem nonarray_schema_expansion :
    (∀ opts, generateConfigsFromSchema (Schema.objectForm opts) = [JSVal.num 2])
    ∧ generateConfigsFromSchema Schema.absent = [JSVal.num 2]
    ∧ lengthOr1 (JSVal.num 2) = 1
    ∧ mkRegistry [("no-schema", generateConfigsFromSchema Schema.absent)]
        = [("no-schema", [RegistryItem.mk (JSVal.num 2) 1 0])] :=
  ⟨fun _ => rfl, rfl, rfl, rfl⟩
